import Mathlib

/-!
Shallow embedding of the yeeroot node core, translated from the Rust sources:

* the proof-of-work seal algorithm of `client/pow/src/pow.rs`
  (`is_valid_hash`, `Compute::compute`, `Sha3Algorithm::{difficulty, verify, mine}`);
* the scale-out phase state machine of `frame/sharding/src/lib.rs`
  (`ScaleOutPhase`, `Module::set_shard_info`, `Module::on_finalize`);
* the mining worker loop body of `client/consensus/pow/src/worker.rs` (`start_worker`);
* the cross-shard relay wire-format decoders of `client/util/src/relay_decode.rs`
  and `primitives/relay/src/lib.rs`
  (`OriginTransfer::decode`, `RelayTransfer::decode`, `RelayParams::decode`,
  `OriginExtrinsic::decode`).

Bytes are modelled as natural numbers (every byte the model produces is below 256).
External crates are embedded as follows: the SCALE codec primitives used by the
decoders (compact integers, byte vectors, `Era`) are modelled structurally after
parity-scale-codec / sp-runtime (mode and length handling; the codec crate's
minimal-encoding range checks are omitted, which only enlarges the set of inputs
that decode successfully); the SHA3-256 and Blake2 digests and the mining RNG come
from external crates and are passed as explicit function parameters.  The generic
`Address`/`AccountId`, `Balance` and `Hash` type parameters of the decoders are
instantiated at the node's concrete types: 32-byte account ids and hashes, and a
`u128` balance.
-/

set_option maxRecDepth 65536

/-- Bytes of the wire formats, as natural numbers. -/
abbrev Byte := Nat

/-- Incremental decoder over a byte list: returns the decoded value and the
unconsumed tail, or fails.  This mirrors how the Rust decode routines thread a
shrinking `&[u8]` input through successive codec reads. -/
def Dec (α : Type) : Type := List Byte → Option (α × List Byte)

/-- Decoder that consumes nothing and returns a fixed value. -/
def dPure {α : Type} (a : α) : Dec α := fun l => some (a, l)

/-- Decoder that always fails (a `return None` path in the sources). -/
def dFail {α : Type} : Dec α := fun _ => none

/-- Sequencing of decoders: run the first, feed its unconsumed tail to the second. -/
def dBind {α β : Type} (d : Dec α) (f : α → Dec β) : Dec β := fun l =>
  match d l with
  | none => none
  | some (a, r) => f a r

/-- Mirrors `input.read_byte()`: consumes one byte, failing on empty input. -/
def readByte : Dec Byte := fun l =>
  match l with
  | [] => none
  | b :: r => some (b, r)

/-- Consumes exactly `n` bytes (mirrors the length-checked slice reads such as
`&input[..64]`), failing when fewer remain. -/
def readBytes (n : Nat) : Dec (List Byte) := fun l =>
  if l.length < n then none else some (l.take n, l.drop n)

/-- Mirrors the sources' explicit `if input.len() < n { return None }` guards:
fails without consuming anything when fewer than `n` bytes remain. -/
def checkLen (n : Nat) : Dec Unit := fun l =>
  if l.length < n then none else some ((), l)

/-- Mirrors `RelayParams::decode`'s guard `if input.len() <= MIN_RELAY_SIZE`:
fails unless strictly more than `n` bytes remain. -/
def checkLenOver (n : Nat) : Dec Unit := fun l =>
  if l.length ≤ n then none else some ((), l)

/-- Reads the next byte without consuming it (mirrors the `input[0] != 0u8`
era lookahead in the sources). -/
def peekByte : Dec Byte := fun l =>
  match l with
  | [] => none
  | b :: r => some (b, b :: r)

/-- Little-endian byte-list to number conversion (as the codec crate's
fixed-width integer decode). -/
def fromLEBytes : List Byte → Nat
  | [] => 0
  | b :: r => b + 256 * fromLEBytes r

/-- Number to little-endian byte list of width `w` (as the codec crate's
fixed-width integer encode). -/
def toLEBytes : Nat → Nat → List Byte
  | 0, _ => []
  | w + 1, n => n % 256 :: toLEBytes w (n / 256)

/-- SCALE compact integer decode, modelled after parity-scale-codec's
`Compact<T>::decode`: the two low bits of the first byte select single-byte,
two-byte, four-byte, or big mode; big mode reads `(b0 >> 2) + 4` further bytes
and is rejected when that exceeds the width of `T` (`maxBytes`).  The crate's
minimal-encoding range checks are omitted. -/
def decodeCompact (maxBytes : Nat) : Dec Nat :=
  dBind readByte fun b0 =>
  match b0 % 4 with
  | 0 => dPure (b0 / 4)
  | 1 => dBind readByte fun b1 => dPure ((b0 + 256 * b1) / 4)
  | 2 => dBind (readBytes 3) fun bs => dPure ((b0 + 256 * fromLEBytes bs) / 4)
  | _ =>
    if b0 / 4 + 4 ≤ maxBytes then
      dBind (readBytes (b0 / 4 + 4)) fun bs => dPure (fromLEBytes bs)
    else dFail

/-- Mirrors the `let _len: Vec<()> = Decode::decode(&mut input)` reads that skip
the compact length prefix: `Vec<()>` decodes its `Compact<u32>` length and then
`len` unit values, each consuming no bytes. -/
def decodeVecUnit : Dec (List Unit) :=
  dBind (decodeCompact 4) fun n => dPure (List.replicate n ())

/-- SCALE `Vec<u8>` decode: a `Compact<u32>` length followed by that many bytes. -/
def decodeByteVec : Dec (List Byte) :=
  dBind (decodeCompact 4) fun n => readBytes n

/-- Transaction era, as sp-runtime's `generic::Era`. -/
inductive Era
  | Immortal
  | Mortal (period : Nat) (phase : Nat)
deriving DecidableEq, Inhabited

/-- Era decode, modelled after sp-runtime's `Era::decode`: a zero first byte is
`Immortal`; otherwise a second byte completes a 16-bit code from which the
mortal period and phase are derived and validated. -/
def eraDecode : Dec Era :=
  dBind readByte fun first =>
  if first = 0 then dPure Era.Immortal
  else
    dBind readByte fun second =>
    let encoded := first + 256 * second
    let period := 2 <<< (encoded % 16)
    let quantize_factor := max (period >>> 12) 1
    let phase := (encoded >>> 4) * quantize_factor
    if 4 ≤ period ∧ phase < period then dPure (Era.Mortal period phase) else dFail

/-- Extension stability of a decoder: bytes appended after the consumed region
never change a successful parse.  Every read in the embedded decoders either
consumes bytes from the front or merely requires a minimum remaining length, so
all of them enjoy this property; it is the key step in proving that truncating
a fully-consumed buffer always yields a decode failure. -/
def ExtStable {α : Type} (d : Dec α) : Prop :=
  ∀ (l ext : List Byte) (a : α) (r : List Byte),
    d l = some (a, r) → d (l ++ ext) = some (a, r ++ ext)

/-- Suffix stability of a decoder: the unconsumed tail of a successful parse is
a suffix of the input.  Used to locate the embedded raw origin-transfer bytes
inside a relay buffer. -/
def DecSuffix {α : Type} (d : Dec α) : Prop :=
  ∀ (l : List Byte) (a : α) (r : List Byte), d l = some (a, r) → r.IsSuffix l

/-! ### Proof-of-work seal algorithm, from `client/pow/src/pow.rs`

`Difficulty` is `U256` and `H256` is a 32-byte hash; both are SCALE-encoded as
32 raw bytes (little-endian for `U256`).  The SHA3-256 digest of the external
`sha3` crate is passed as the function parameter `sha3`. -/

/-- 256-bit values (`H256` hashes) as byte lists. -/
abbrev Hash256 := List Byte

/-- Seal structure from `pow.rs`: `{ difficulty: Difficulty, work: H256, nonce: H256 }`. -/
structure Seal where
  difficulty : Nat
  work : Hash256
  nonce : Hash256
deriving DecidableEq, Inhabited

/-- SCALE encoding of a `Seal` (derive `Encode`): the `U256` difficulty as 32
little-endian bytes, then the raw bytes of `work` and `nonce`. -/
def Seal.encode (s : Seal) : List Byte :=
  toLEBytes 32 s.difficulty ++ s.work ++ s.nonce

/-- SCALE decode of a `Seal` from raw seal bytes, as the
`Seal::decode(&mut &seal[..])` call in `verify`: reads the three 32-byte
fields, ignoring any trailing bytes. -/
def Seal.decode (l : List Byte) : Option Seal :=
  match readBytes 32 l with
  | none => none
  | some (d, r1) =>
    match readBytes 32 r1 with
    | none => none
    | some (w, r2) =>
      match readBytes 32 r2 with
      | none => none
      | some (n, _) => some { difficulty := fromLEBytes d, work := w, nonce := n }

/-- Calculation structure from `pow.rs`: the triple whose SCALE encoding is
hashed to produce the work hash. -/
structure Calculation where
  difficulty : Nat
  pre_hash : Hash256
  nonce : Hash256

/-- SCALE encoding of a `Calculation` (derive `Encode`), field order
`difficulty`, `pre_hash`, `nonce`. -/
def Calculation.encode (c : Calculation) : List Byte :=
  toLEBytes 32 c.difficulty ++ c.pre_hash ++ c.nonce

/-- Compute structure from `pow.rs`. -/
structure Compute where
  pre_hash : Hash256
  difficulty : Nat
  nonce : Hash256

/-- Mirrors `Compute::compute`: SHA3-256 of the SCALE-encoded `Calculation`
triple becomes the `work` field of the seal. -/
def Compute.compute (sha3 : List Byte → Hash256) (c : Compute) : Seal :=
  let calculation : Calculation :=
    { difficulty := c.difficulty, pre_hash := c.pre_hash, nonce := c.nonce }
  let work := sha3 (Calculation.encode calculation)
  { nonce := c.nonce, difficulty := c.difficulty, work := work }

/-- Translated verbatim from `pow.rs`: `is_valid_hash` ignores both the hash
and the difficulty and returns `true` — the difficulty-threshold predicate is
a stub in this source file. -/
def is_valid_hash (_hash : Hash256) (_difficulty : Nat) : Bool :=
  true

/-- Mirrors `Sha3Algorithm::difficulty`: returns `Ok(U256::from(10000))` for
every parent hash. -/
def Sha3Algorithm.difficulty (_parent : Hash256) : Except String Nat :=
  .ok 10000

/-- Mirrors `Sha3Algorithm::verify` (all of whose paths return `Ok`, so the
result is modelled as the boolean): decode the seal bytes, run the
`is_valid_hash` check, recompute the work from the argument difficulty and the
decoded nonce, and compare with the decoded seal. -/
def Sha3Algorithm.verify (sha3 : List Byte → Hash256) (pre_hash : Hash256)
    (sealBytes : List Byte) (difficulty : Nat) : Bool :=
  match Seal.decode sealBytes with
  | none => false
  | some s =>
    if is_valid_hash s.work difficulty = false then false
    else
      let compute : Compute :=
        { difficulty := difficulty, pre_hash := pre_hash, nonce := s.nonce }
      if Compute.compute sha3 compute ≠ s then false
      else true

/-- Loop of `Sha3Algorithm::mine`, indexed by the attempt number `i` and the
remaining budget: draw the next random nonce (the RNG of the source is modelled
as the stream `nonces`), compute the seal, and return its encoding when
`is_valid_hash` accepts the work hash. -/
def Sha3Algorithm.mineAux (sha3 : List Byte → Hash256) (nonces : Nat → Hash256)
    (pre_hash : Hash256) (difficulty : Nat) : Nat → Nat → Option (List Byte)
  | _, 0 => none
  | i, fuel + 1 =>
    let nonce := nonces i
    let compute : Compute :=
      { difficulty := difficulty, pre_hash := pre_hash, nonce := nonce }
    let minedSeal := Compute.compute sha3 compute
    if is_valid_hash minedSeal.work difficulty then some (Seal.encode minedSeal)
    else Sha3Algorithm.mineAux sha3 nonces pre_hash difficulty (i + 1) fuel

/-- Mirrors `Sha3Algorithm::mine`: try up to `round` nonces from the RNG
stream.  (The source's RNG initialization error path and its per-attempt sleep
are outside the model.) -/
def Sha3Algorithm.mine (sha3 : List Byte → Hash256) (nonces : Nat → Hash256)
    (pre_hash : Hash256) (difficulty : Nat) (round : Nat) : Option (List Byte) :=
  Sha3Algorithm.mineAux sha3 nonces pre_hash difficulty 0 round

/-- Constant stand-in for the external SHA3-256 digest whose output is the
all-255 word, the numerically largest 256-bit hash value. -/
def sha3Const255 : List Byte → Hash256 := fun _ => List.replicate 32 255

/-- All-zero 32-byte word. -/
def zeroHash : Hash256 := List.replicate 32 0

/-- Constant stand-in for the mining RNG nonce stream. -/
def zeroNonces : Nat → Hash256 := fun _ => zeroHash

/-! ### Scale-out coordinator, from `frame/sharding/src/lib.rs`

The frame module is generic over `T::ShardNum` (a `BaseArithmetic` type) and
`T::BlockNumber`; both are instantiated at `Nat`.  Storage consists of the
configured observation window `ScaleOutObserveBlocks`, the current `ShardInfo`
and the current `ScaleOutPhase`. -/

/-- ScaleOut structure from `primitives/sharding`. -/
structure ScaleOut where
  shard_num : Nat
deriving DecidableEq, Inhabited

/-- ShardInfo structure from `primitives/sharding`. -/
structure ShardInfo where
  num : Nat
  count : Nat
  scale_out : Option ScaleOut
deriving DecidableEq, Inhabited

/-- ScaleOutPhase enumeration from `frame/sharding` (constructor and field
names as in the source, including the `observe_util` and `Commiting`
spellings). -/
inductive ScaleOutPhase
  | Started (observe_util : Nat) (shard_num : Nat)
  | NativeReady (observe_util : Nat) (shard_num : Nat)
  | Ready (observe_util : Nat) (shard_num : Nat)
  | Commiting (shard_count : Nat)
  | Committed (shard_num : Nat) (shard_count : Nat)
deriving DecidableEq, Inhabited

/-- RawLog digest entries of the sharding module (the source names its second
constructor `ScaleOutPhase`, like the phase type). -/
inductive RawLog
  | ShardMarker (num : Nat) (count : Nat)
  | ScaleOutPhaseLog (phase : ScaleOutPhase)
deriving DecidableEq, Inhabited

/-- Storage of the sharding module that `set_shard_info` and `on_finalize`
touch (`GenesisShardingCount` is never read by them and is omitted). -/
structure ShardingState where
  scale_out_observe_blocks : Nat
  current_shard_info : Option ShardInfo
  current_scale_out_phase : Option ScaleOutPhase
deriving DecidableEq, Inhabited

/-- Mirrors the `target_shard_num` computation of `set_shard_info`. -/
def targetShardNum (info : ShardInfo) : Nat :=
  match info.scale_out with
  | some scale_out => scale_out.shard_num
  | none => info.num

/-- Phase transition performed by one `set_shard_info` call, translated match
arm by match arm from the source: starting a phase when none is live and a
scale-out is requested, advancing `Started`/`NativeReady`/`Ready` exactly when
the current block number equals the recorded `observe_util`, and advancing
`Commiting`/`Committed` unconditionally. -/
def scaleOutPhaseStep (phase : Option ScaleOutPhase) (info : ShardInfo)
    (block_number W : Nat) : Option ScaleOutPhase :=
  let target_shard_num := targetShardNum info
  match phase with
  | none =>
    match info.scale_out with
    | some _ => some (ScaleOutPhase.Started (block_number + W) target_shard_num)
    | none => none
  | some current =>
    match current with
    | .Started observe_util _ =>
      if observe_util = block_number then
        some (.NativeReady (block_number + W) target_shard_num)
      else some current
    | .NativeReady observe_util _ =>
      if observe_util = block_number then
        some (.Ready (block_number + W) target_shard_num)
      else some current
    | .Ready observe_util _ =>
      if observe_util = block_number then
        some (.Commiting (info.count + info.count))
      else some current
    | .Commiting shard_count => some (.Committed target_shard_num shard_count)
    | .Committed _ _ => none

/-- Mirrors `Module::set_shard_info`: stores the supplied `ShardInfo` and runs
the phase transition of `scaleOutPhaseStep` on the stored phase, with the
current block number and the configured observation window. -/
def set_shard_info (st : ShardingState) (info : ShardInfo) (block_number : Nat) :
    ShardingState :=
  { st with
    current_shard_info := some info
    current_scale_out_phase :=
      scaleOutPhaseStep st.current_scale_out_phase info block_number
        st.scale_out_observe_blocks }

/-- Mirrors `Module::on_finalize`: deposits a `ShardMarker` log when shard info
is present and a `ScaleOutPhase` log when a phase is live.  Storage is not
modified — the returned state is the input state. -/
def on_finalize (st : ShardingState) (_block_number : Nat) :
    ShardingState × List RawLog :=
  let info_logs :=
    match st.current_shard_info with
    | some shard_info => [RawLog.ShardMarker shard_info.num shard_info.count]
    | none => []
  let phase_logs :=
    match st.current_scale_out_phase with
    | some scale_out_phase => [RawLog.ScaleOutPhaseLog scale_out_phase]
    | none => []
  (st, info_logs ++ phase_logs)

/-- Position of a phase in the documented cycle
`None, Started, NativeReady, Ready, Commiting, Committed`. -/
def phaseIndex : Option ScaleOutPhase → Nat
  | none => 0
  | some (.Started _ _) => 1
  | some (.NativeReady _ _) => 2
  | some (.Ready _ _) => 3
  | some (.Commiting _) => 4
  | some (.Committed _ _) => 5

/-- Observation height carried by a phase, when it has one. -/
def observeUtil : Option ScaleOutPhase → Option Nat
  | some (.Started u _) => some u
  | some (.NativeReady u _) => some u
  | some (.Ready u _) => some u
  | _ => none

/-- Coordinator state used by the concrete scale-out scenarios: observation
window 3, a live `Ready` phase with `observe_util = 5`. -/
def readyState : ShardingState :=
  { scale_out_observe_blocks := 3
    current_shard_info := none
    current_scale_out_phase := some (.Ready 5 1) }

/-- Shard topology carried by the inherent in the concrete scenarios: shard 1
of 4, with a scale-out to shard 1 requested. -/
def scaleOutInfo : ShardInfo :=
  { num := 1, count := 4, scale_out := some { shard_num := 1 } }

/-- Shard topology without a scale-out request. -/
def plainInfo : ShardInfo :=
  { num := 1, count := 4, scale_out := none }

/-! ### Mining worker loop, from `client/consensus/pow/src/worker.rs` -/

/-- Outcome of one iteration of the `loop_fn` closure in `start_worker`:
break out of the loop, sleep the given number of seconds and re-check
(`delayed_continue`), or run `on_work` with the given attempt budget and
continue without delay. -/
inductive LoopStep
  | Break
  | SleepRetry (seconds : Nat)
  | Work (iter : Nat)
deriving DecidableEq, Inhabited

/-- Decision taken by one iteration of the `loop_fn` closure in `start_worker`,
in source order: a disabled `mine` flag breaks out; then the stop sign is read
(`stop_read` models the `RwLock` read, `none` being a poisoned-lock error),
breaking on error or when the flag is set; a major-sync report sleeps 5 seconds
and re-checks; otherwise `on_work(10000)` runs and the loop continues. -/
def worker_loop_step (mine : Bool) (stop_read : Option Bool)
    (is_major_syncing : Bool) : LoopStep :=
  if !mine then .Break
  else
    match stop_read with
    | some stop_sign =>
      if stop_sign then .Break
      else if is_major_syncing then .SleepRetry 5
      else .Work 10000
    | none => .Break

/-! ### Cross-shard relay wire format, from `client/util/src/relay_decode.rs`
and `primitives/relay/src/lib.rs`

The generic `Address`/`AccountId` and `Hash` parameters are instantiated at the
node's 32-byte account ids and hashes (their SCALE decode reads 32 raw bytes,
and `Address::default()` is the all-zero id), and `Balance` at `u128` (SCALE
decode of 16 little-endian bytes).  The 256-bit Blake2 content hash of
sp-core's `Blake2Hasher` is an external digest, passed as the parameter
`blake2`; since the `Hash` encode/decode round-trip on its 32 bytes is the
identity, the sources' `Decode::decode(&mut Blake2Hasher::hash(origin)
.encode().as_slice()).unwrap()` is the digest value itself. -/

/-- SCALE decode of the 32-byte `AccountId`/`Address` instantiation. -/
def decodeAddress : Dec (List Byte) := readBytes 32

/-- SCALE decode of the 32-byte `Hash` instantiation. -/
def decodeHash : Dec (List Byte) := readBytes 32

/-- Amount field decode of the origin decoders: the decoded `Compact<u128>`
value is re-encoded through the native `u128` width (16 little-endian bytes)
and the `Balance` (`u128`) is decoded back from that buffer, exactly as the
sources do. -/
def decodeAmount : Dec Nat :=
  dBind (decodeCompact 16) fun a =>
  let buf := toLEBytes 16 a
  if buf.length < 16 then dFail else dPure (fromLEBytes (buf.take 16))

/-- Era field read of the origin decoders: a remaining-length check, then the
`input[0] != 0u8` lookahead choosing between `Era::decode` and consuming the
single zero byte as `Immortal`. -/
def decodeEraField : Dec Era :=
  dBind (checkLen 1) fun _ =>
  dBind peekByte fun b0 =>
  if b0 ≠ 0 then eraDecode
  else dBind readByte fun _ => dPure Era.Immortal

/-- Signed-branch reads shared by `OriginTransfer::decode` and
`OriginExtrinsic::decode`: sender address tag, sender address, a
remaining-length check and the raw 64-byte signature, the compact nonce, and
the era field. -/
def decodeSignedPart : Dec (List Byte × List Byte × Nat × Era) :=
  dBind readByte fun _type =>
  dBind decodeAddress fun sender =>
  dBind (checkLen 64) fun _ =>
  dBind (readBytes 64) fun signature =>
  dBind (decodeCompact 8) fun index =>
  dBind decodeEraField fun era =>
  dPure (sender, signature, index, era)

/-- OriginTransfer structure from `relay_decode.rs`. -/
structure OriginTransfer where
  sender : List Byte
  signature : List Byte
  index : Nat
  era : Era
  dest : List Byte
  amount : Nat
deriving DecidableEq, Inhabited

/-- Mirrors `OriginTransfer::decode`, keeping the unconsumed tail: the minimum
length guard of `64 + 1 + 1` bytes, the skipped compact length prefix, the
version byte with its high `is_signed` bit and 7-bit version number (which
must be 1), the signed-branch fields or their defaults, the
`2 + 32 + 1` remaining-length guard, module, function and destination tag
bytes, the destination address, and the amount. -/
def OriginTransfer.decodeRem : Dec OriginTransfer :=
  dBind (checkLen (64 + 1 + 1)) fun _ =>
  dBind decodeVecUnit fun _len =>
  dBind readByte fun version =>
  if version &&& 127 ≠ 1 then dFail
  else
    dBind (if version &&& 128 ≠ 0 then decodeSignedPart
           else dPure (List.replicate 32 0, [], 0, Era.Immortal)) fun sie =>
    dBind (checkLen (2 + 32 + 1)) fun _ =>
    dBind readByte fun _module =>
    dBind readByte fun _func =>
    dBind readByte fun _type =>
    dBind decodeAddress fun dest =>
    dBind decodeAmount fun amount =>
    dPure { sender := sie.1, signature := sie.2.1, index := sie.2.2.1,
            era := sie.2.2.2, dest := dest, amount := amount }

/-- Public `OriginTransfer::decode`: the decoded value, trailing bytes ignored. -/
def OriginTransfer.decode (data : List Byte) : Option OriginTransfer :=
  (OriginTransfer.decodeRem data).map Prod.fst

/-- RelayTransfer structure from `relay_decode.rs`. -/
structure RelayTransfer where
  transfer : OriginTransfer
  number : Nat
  hash : List Byte
  block_hash : List Byte
  parent : List Byte
  origin : List Byte
deriving DecidableEq, Inhabited

/-- Mirrors `RelayTransfer::decode`, keeping the unconsumed tail: the skipped
compact length prefix, the version byte (must be unsigned and version 1),
module and function bytes, the `64 + 32 + 32 + 2` remaining-length guard, the
length-prefixed raw origin-transfer bytes, the compact origin block number, the
block hash and parent hash, and finally the embedded origin bytes decoded as an
`OriginTransfer`; the stored `hash` is the Blake2 content hash of the raw
origin bytes. -/
def RelayTransfer.decodeRem (blake2 : List Byte → List Byte) : Dec RelayTransfer :=
  dBind decodeVecUnit fun _len =>
  dBind readByte fun version =>
  if version &&& 128 ≠ 0 ∨ version &&& 127 ≠ 1 then dFail
  else
    dBind readByte fun _module =>
    dBind readByte fun _func =>
    dBind (checkLen (64 + 32 + 32 + 2)) fun _ =>
    dBind decodeByteVec fun origin =>
    dBind (decodeCompact 8) fun number =>
    dBind decodeHash fun block_hash =>
    dBind decodeHash fun parent =>
    match OriginTransfer.decode origin with
    | some ot =>
      dPure { transfer := ot, number := number, hash := blake2 origin,
              block_hash := block_hash, parent := parent, origin := origin }
    | none => dFail

/-- Public `RelayTransfer::decode`. -/
def RelayTransfer.decode (blake2 : List Byte → List Byte) (data : List Byte) :
    Option RelayTransfer :=
  (RelayTransfer.decodeRem blake2 data).map Prod.fst

/-- RelayTypes enumeration from `primitives/relay`. -/
inductive RelayTypes
  | Balance
  | Assets
deriving DecidableEq, Inhabited

/-- SCALE decode of the derived `RelayTypes` enum: tag byte 0 is `Balance`,
1 is `Assets`, anything else fails. -/
def decodeRelayTypes : Dec RelayTypes :=
  dBind readByte fun b =>
  if b = 0 then dPure RelayTypes.Balance
  else if b = 1 then dPure RelayTypes.Assets
  else dFail

/-- MIN_RELAY_SIZE constant from `primitives/relay`. -/
def MIN_RELAY_SIZE : Nat := 2 + 32 + 32 + 64

/-- RelayParams structure from `primitives/relay`. -/
structure RelayParams where
  number : Nat
  hash : List Byte
  block_hash : List Byte
  parent_hash : List Byte
  relay_type : RelayTypes
  origin : List Byte
deriving DecidableEq, Inhabited

/-- Mirrors `RelayParams::decode`, keeping the unconsumed tail: the strict
`MIN_RELAY_SIZE` guard, the skipped compact length prefix, the version byte
(must be unsigned and version 1), module and function bytes, the relay type,
the length-prefixed raw origin bytes, the compact origin block number and the
two hashes; the stored `hash` is the Blake2 content hash of the raw origin
bytes. -/
def RelayParams.decodeRem (blake2 : List Byte → List Byte) : Dec RelayParams :=
  dBind (checkLenOver MIN_RELAY_SIZE) fun _ =>
  dBind decodeVecUnit fun _len =>
  dBind readByte fun version =>
  if version &&& 128 ≠ 0 ∨ version &&& 127 ≠ 1 then dFail
  else
    dBind readByte fun _module =>
    dBind readByte fun _func =>
    dBind decodeRelayTypes fun relay_type =>
    dBind decodeByteVec fun origin =>
    dBind (decodeCompact 8) fun number =>
    dBind decodeHash fun block_hash =>
    dBind decodeHash fun parent_hash =>
    dPure { number := number, hash := blake2 origin, block_hash := block_hash,
            parent_hash := parent_hash, relay_type := relay_type, origin := origin }

/-- Public `RelayParams::decode` (the source takes the buffer by value). -/
def RelayParams.decode (blake2 : List Byte → List Byte) (input : List Byte) :
    Option RelayParams :=
  (RelayParams.decodeRem blake2 input).map Prod.fst

/-- OriginExtrinsic structure from `primitives/relay`. -/
structure OriginExtrinsic where
  shard : List Byte
  id : Option Nat
  sender : List Byte
  signature : List Byte
  index : Nat
  era : Era
  dest : List Byte
  amount : Nat
deriving DecidableEq, Inhabited

/-- Mirrors `OriginExtrinsic::decode`, keeping the unconsumed tail: the same
layout as `OriginTransfer::decode` except that for the `Assets` relay type a
length-prefixed shard code and a compact asset id are read between the
module/function bytes and the destination. -/
def OriginExtrinsic.decodeRem (relay_type : RelayTypes) : Dec OriginExtrinsic :=
  dBind (checkLen (64 + 1 + 1)) fun _ =>
  dBind decodeVecUnit fun _len =>
  dBind readByte fun version =>
  if version &&& 127 ≠ 1 then dFail
  else
    dBind (if version &&& 128 ≠ 0 then decodeSignedPart
           else dPure (List.replicate 32 0, [], 0, Era.Immortal)) fun sie =>
    dBind (checkLen (2 + 32 + 1)) fun _ =>
    dBind readByte fun _module =>
    dBind readByte fun _func =>
    dBind (if relay_type = RelayTypes.Assets then
             dBind decodeByteVec fun shard_code =>
             dBind (decodeCompact 4) fun id => dPure (shard_code, id)
           else dPure ([], 0)) fun shard_id =>
    dBind readByte fun _type =>
    dBind decodeAddress fun dest =>
    dBind decodeAmount fun amount =>
    if relay_type = RelayTypes.Assets then
      dPure { shard := shard_id.1, id := some shard_id.2, sender := sie.1,
              signature := sie.2.1, index := sie.2.2.1, era := sie.2.2.2,
              dest := dest, amount := amount }
    else if relay_type = RelayTypes.Balance then
      dPure { shard := shard_id.1, id := none, sender := sie.1,
              signature := sie.2.1, index := sie.2.2.1, era := sie.2.2.2,
              dest := dest, amount := amount }
    else dFail

/-- Public `OriginExtrinsic::decode`. -/
def OriginExtrinsic.decode (relay_type : RelayTypes) (input : List Byte) :
    Option OriginExtrinsic :=
  (OriginExtrinsic.decodeRem relay_type input).map Prod.fst

/-- Version byte of a relay buffer: the byte following the compact length
prefix, extracted exactly as the relay decoders extract it. -/
def relayVersionByte (data : List Byte) : Option Byte :=
  ((dBind decodeVecUnit fun _ => readByte) data).map Prod.fst

/-- Constant stand-in for the external Blake2 content hash. -/
def blakeZero : List Byte → List Byte := fun _ => List.replicate 32 0

/-- Known-good signed origin transfer sample embedded as the test vector of
`relay_decode.rs` (hex `250281ff784c...a48a10f`, 139 bytes): a signed
version-1 transfer with nonce 12, immortal era and amount 1000, consumed
exactly by `OriginTransfer::decode`. -/
def testTransferBytes : List Byte := [
  37, 2, 129, 255, 120, 76, 178, 154, 96, 91, 85, 124, 17, 163, 226, 37,
  32, 56, 124, 67, 119, 222, 209, 115, 79, 86, 144, 13, 127, 4, 148, 106,
  11, 112, 243, 56, 188, 155, 15, 242, 255, 164, 185, 93, 68, 121, 203, 172,
  206, 252, 123, 190, 144, 132, 48, 245, 197, 236, 87, 26, 37, 199, 30, 224,
  5, 213, 117, 91, 101, 183, 118, 141, 255, 144, 71, 154, 9, 240, 213, 69,
  56, 78, 87, 240, 87, 112, 118, 100, 226, 250, 37, 8, 24, 135, 122, 26,
  90, 151, 31, 15, 48, 0, 3, 0, 255, 142, 175, 4, 21, 22, 135, 115,
  99, 38, 201, 254, 161, 126, 37, 252, 82, 135, 97, 54, 147, 201, 18, 144,
  156, 178, 38, 170, 71, 148, 242, 106, 72, 161, 15]

/-- Relay-wrapped buffer built around the known-good sample: empty compact
length prefix, unsigned version-1 byte, module and function bytes, the sample
as the length-prefixed origin bytes, compact origin block number 1, and zero
block and parent hashes. -/
def relayBytes : List Byte :=
  [0, 1, 0, 0] ++ [45, 2] ++ testTransferBytes ++ [4]
    ++ List.replicate 32 0 ++ List.replicate 32 0

/-- RelayParams buffer: as `relayBytes` with the `Balance` relay-type tag
inserted after the module and function bytes. -/
def relayParamsBytes : List Byte :=
  [0, 1, 0, 0, 0] ++ [45, 2] ++ testTransferBytes ++ [4]
    ++ List.replicate 32 0 ++ List.replicate 32 0

/-- Minimal well-formed unsigned origin transfer: empty compact length prefix,
unsigned version-1 byte, module and function bytes, destination tag, a 32-byte
destination and compact amount 1 — 38 bytes in total, below the decoders'
66-byte minimum. -/
def unsignedTransferBytes : List Byte :=
  [0, 1, 0, 0, 255] ++ List.replicate 32 7 ++ [4]

/-! ### Theorems: decoder infrastructure -/

/-- Characterization of successful sequencing, used to destructure the decoders
step by step in proofs. -/
theorem dBind_eq_some {α β : Type} {d : Dec α} {f : α → Dec β} {l : List Byte}
    {z : β × List Byte} :
    dBind d f l = some z ↔ ∃ a r, d l = some (a, r) ∧ f a r = some z := by
  unfold dBind
  cases hda : d l with
  | none => simp
  | some p =>
    obtain ⟨a, m⟩ := p
    simp only []
    constructor
    · intro h
      exact ⟨a, m, rfl, h⟩
    · rintro ⟨a1, r1, h1, h2⟩
      obtain ⟨rfl, rfl⟩ : a = a1 ∧ m = r1 := by
        have := Option.some.inj h1
        exact ⟨congrArg Prod.fst this, congrArg Prod.snd this⟩
      exact h2

/-- Characterization of a successful `readBytes`. -/
theorem readBytes_eq_some {n : Nat} {l v r : List Byte} :
    readBytes n l = some (v, r) ↔ n ≤ l.length ∧ v = l.take n ∧ r = l.drop n := by
  unfold readBytes
  split
  · rename_i hl
    constructor
    · intro h
      exact absurd h (by simp)
    · rintro ⟨h1, _, _⟩
      omega
  · rename_i hl
    simp only [Option.some.injEq, Prod.mk.injEq]
    constructor
    · rintro ⟨h1, h2⟩
      exact ⟨Nat.le_of_not_lt hl, h1.symm, h2.symm⟩
    · rintro ⟨_, h1, h2⟩
      exact ⟨h1.symm, h2.symm⟩

theorem extStable_dPure {α : Type} (a : α) : ExtStable (dPure a) := by
  intro l ext a r h
  simp only [dPure, Option.some.injEq, Prod.mk.injEq] at h
  simp [dPure, h.1, h.2]

theorem extStable_dFail {α : Type} : ExtStable (dFail : Dec α) := by
  intro l ext a r h
  simp [dFail] at h

theorem extStable_dBind {α β : Type} {d : Dec α} {f : α → Dec β}
    (hd : ExtStable d) (hf : ∀ a, ExtStable (f a)) : ExtStable (dBind d f) := by
  intro l ext b r h
  unfold dBind at h ⊢
  cases hda : d l with
  | none => rw [hda] at h; exact absurd h (by simp)
  | some p =>
    obtain ⟨a, m⟩ := p
    rw [hda] at h
    rw [hd l ext a m hda]
    exact hf a m ext b r h

theorem extStable_readByte : ExtStable readByte := by
  intro l ext a r h
  cases l with
  | nil => simp [readByte] at h
  | cons b t =>
    simp only [readByte, Option.some.injEq, Prod.mk.injEq] at h
    simp [readByte, h.1, h.2]

theorem extStable_readBytes (n : Nat) : ExtStable (readBytes n) := by
  intro l ext a r h
  unfold readBytes at h ⊢
  split at h
  · exact absurd h (by simp)
  · rename_i hlen
    simp only [Option.some.injEq, Prod.mk.injEq] at h
    have hle : n ≤ l.length := Nat.le_of_not_lt hlen
    rw [if_neg (by simp [List.length_append]; omega)]
    rw [List.take_append_of_le_length hle, List.drop_append_of_le_length hle]
    rw [h.1, h.2]

theorem extStable_checkLen (n : Nat) : ExtStable (checkLen n) := by
  intro l ext a r h
  unfold checkLen at h ⊢
  split at h
  · exact absurd h (by simp)
  · rename_i hlen
    simp only [Option.some.injEq, Prod.mk.injEq] at h
    rw [if_neg (by simp [List.length_append]; omega)]
    rw [h.2]

theorem extStable_checkLenOver (n : Nat) : ExtStable (checkLenOver n) := by
  intro l ext a r h
  unfold checkLenOver at h ⊢
  split at h
  · exact absurd h (by simp)
  · rename_i hlen
    simp only [Option.some.injEq, Prod.mk.injEq] at h
    rw [if_neg (by simp [List.length_append]; omega)]
    rw [h.2]

theorem extStable_peekByte : ExtStable peekByte := by
  intro l ext a r h
  cases l with
  | nil => simp [peekByte] at h
  | cons b t =>
    simp only [peekByte, Option.some.injEq, Prod.mk.injEq] at h
    simp [peekByte, h.1]
    rw [← h.2]
    simp [h.1]

theorem extStable_ite {α : Type} (c : Prop) [Decidable c] {d₁ d₂ : Dec α}
    (h₁ : ExtStable d₁) (h₂ : ExtStable d₂) : ExtStable (if c then d₁ else d₂) := by
  split
  · exact h₁
  · exact h₂

theorem extStable_decodeCompact (maxBytes : Nat) : ExtStable (decodeCompact maxBytes) := by
  unfold decodeCompact
  apply extStable_dBind extStable_readByte
  intro b0
  dsimp only
  split
  · exact extStable_dPure _
  · exact extStable_dBind extStable_readByte fun _ => extStable_dPure _
  · exact extStable_dBind (extStable_readBytes 3) fun _ => extStable_dPure _
  · exact extStable_ite _
      (extStable_dBind (extStable_readBytes _) fun _ => extStable_dPure _)
      extStable_dFail

theorem extStable_decodeVecUnit : ExtStable decodeVecUnit :=
  extStable_dBind (extStable_decodeCompact 4) fun _ => extStable_dPure _

theorem extStable_decodeByteVec : ExtStable decodeByteVec :=
  extStable_dBind (extStable_decodeCompact 4) fun n => extStable_readBytes n

theorem extStable_eraDecode : ExtStable eraDecode := by
  unfold eraDecode
  apply extStable_dBind extStable_readByte
  intro first
  apply extStable_ite
  · exact extStable_dPure _
  · apply extStable_dBind extStable_readByte
    intro second
    exact extStable_ite _ (extStable_dPure _) extStable_dFail

theorem decSuffix_dPure {α : Type} (a : α) : DecSuffix (dPure a) := by
  intro l a r h
  simp only [dPure, Option.some.injEq, Prod.mk.injEq] at h
  rw [← h.2]

theorem decSuffix_dFail {α : Type} : DecSuffix (dFail : Dec α) := by
  intro l a r h
  simp [dFail] at h

theorem decSuffix_dBind {α β : Type} {d : Dec α} {f : α → Dec β}
    (hd : DecSuffix d) (hf : ∀ a, DecSuffix (f a)) : DecSuffix (dBind d f) := by
  intro l b r h
  unfold dBind at h
  cases hda : d l with
  | none => rw [hda] at h; exact absurd h (by simp)
  | some p =>
    obtain ⟨a, m⟩ := p
    rw [hda] at h
    exact (hf a m b r h).trans (hd l a m hda)

theorem decSuffix_readByte : DecSuffix readByte := by
  intro l a r h
  cases l with
  | nil => simp [readByte] at h
  | cons b t =>
    simp only [readByte, Option.some.injEq, Prod.mk.injEq] at h
    rw [← h.2]
    exact ⟨[b], rfl⟩

theorem decSuffix_readBytes (n : Nat) : DecSuffix (readBytes n) := by
  intro l a r h
  unfold readBytes at h
  split at h
  · exact absurd h (by simp)
  · simp only [Option.some.injEq, Prod.mk.injEq] at h
    rw [← h.2]
    exact ⟨l.take n, List.take_append_drop n l⟩

theorem decSuffix_checkLen (n : Nat) : DecSuffix (checkLen n) := by
  intro l a r h
  unfold checkLen at h
  split at h
  · exact absurd h (by simp)
  · simp only [Option.some.injEq, Prod.mk.injEq] at h
    rw [← h.2]

theorem decSuffix_checkLenOver (n : Nat) : DecSuffix (checkLenOver n) := by
  intro l a r h
  unfold checkLenOver at h
  split at h
  · exact absurd h (by simp)
  · simp only [Option.some.injEq, Prod.mk.injEq] at h
    rw [← h.2]

theorem decSuffix_peekByte : DecSuffix peekByte := by
  intro l a r h
  cases l with
  | nil => simp [peekByte] at h
  | cons b t =>
    simp only [peekByte, Option.some.injEq, Prod.mk.injEq] at h
    rw [← h.2]

theorem decSuffix_ite {α : Type} (c : Prop) [Decidable c] {d₁ d₂ : Dec α}
    (h₁ : DecSuffix d₁) (h₂ : DecSuffix d₂) : DecSuffix (if c then d₁ else d₂) := by
  split
  · exact h₁
  · exact h₂

theorem decSuffix_decodeCompact (maxBytes : Nat) : DecSuffix (decodeCompact maxBytes) := by
  unfold decodeCompact
  apply decSuffix_dBind decSuffix_readByte
  intro b0
  dsimp only
  split
  · exact decSuffix_dPure _
  · exact decSuffix_dBind decSuffix_readByte fun _ => decSuffix_dPure _
  · exact decSuffix_dBind (decSuffix_readBytes 3) fun _ => decSuffix_dPure _
  · exact decSuffix_ite _
      (decSuffix_dBind (decSuffix_readBytes _) fun _ => decSuffix_dPure _)
      decSuffix_dFail

theorem decSuffix_decodeVecUnit : DecSuffix decodeVecUnit :=
  decSuffix_dBind (decSuffix_decodeCompact 4) fun _ => decSuffix_dPure _

theorem decSuffix_decodeByteVec : DecSuffix decodeByteVec :=
  decSuffix_dBind (decSuffix_decodeCompact 4) fun n => decSuffix_readBytes n

/-- Contents read by `decodeByteVec` sit immediately before the unconsumed tail:
together they form a suffix of the input. -/
theorem decodeByteVec_append_suffix (l : List Byte) (v r : List Byte)
    (h : decodeByteVec l = some (v, r)) : (v ++ r).IsSuffix l := by
  unfold decodeByteVec at h
  rw [dBind_eq_some] at h
  obtain ⟨n, m, hc, hr⟩ := h
  rw [readBytes_eq_some] at hr
  obtain ⟨hn, hv, hrr⟩ := hr
  have hm : v ++ r = m := by rw [hv, hrr, List.take_append_drop]
  rw [hm]
  exact decSuffix_decodeCompact 4 l n m hc

/-- Truncation rejection, generically: if a decoder is extension stable and
consumes a buffer entirely, then every proper truncation of that buffer is a
decode failure. -/
theorem dec_truncation {α : Type} (d : Dec α) (hd : ExtStable d)
    (B : List Byte) (hB : (d B).map Prod.snd = some []) (k : Nat) (hk : k < B.length) :
    d (B.take k) = none := by
  cases h : d (B.take k) with
  | none => rfl
  | some p =>
    obtain ⟨a, r⟩ := p
    have h2 := hd (B.take k) (B.drop k) a r h
    rw [List.take_append_drop] at h2
    rw [h2] at hB
    simp only [Option.map_some', Option.some.injEq] at hB
    have hdrop : B.drop k = [] := (List.append_eq_nil.mp hB).2
    have := List.drop_eq_nil_iff.mp hdrop
    omega

/-! ### Theorems: proof-of-work seal algorithm -/

theorem toLEBytes_length (w n : Nat) : (toLEBytes w n).length = w := by
  induction w generalizing n with
  | zero => rfl
  | succ w ih => simp [toLEBytes, ih]

theorem fromLEBytes_toLEBytes (w n : Nat) (h : n < 256 ^ w) :
    fromLEBytes (toLEBytes w n) = n := by
  induction w generalizing n with
  | zero =>
    simp [toLEBytes, fromLEBytes]
    omega
  | succ w ih =>
    have hdiv : n / 256 < 256 ^ w := by
      rw [Nat.div_lt_iff_lt_mul (by norm_num)]
      calc n < 256 ^ (w + 1) := h
        _ = 256 ^ w * 256 := by ring
    simp only [toLEBytes, fromLEBytes, ih (n / 256) hdiv]
    omega

/-- Reading exactly the length of the first block returns it and the rest. -/
theorem readBytes_exact {n : Nat} (a b : List Byte) (h : a.length = n) :
    readBytes n (a ++ b) = some (a, b) := by
  rw [readBytes_eq_some]
  subst h
  exact ⟨by simp, (List.take_left a b).symm, (List.drop_left a b).symm⟩

/-- Reading exactly the whole input returns it with an empty tail. -/
theorem readBytes_all (n : Nat) (a : List Byte) (h : a.length = n) :
    readBytes n a = some (a, []) := by
  have := readBytes_exact a ([] : List Byte) h
  simpa using this

/-- Round-trip of the seal codec: decoding the SCALE encoding of a well-formed
seal returns the seal. -/
theorem Seal.decode_encode (s : Seal) (hw : s.work.length = 32)
    (hn : s.nonce.length = 32) (hd : s.difficulty < 256 ^ 32) :
    Seal.decode (Seal.encode s) = some s := by
  obtain ⟨d, w, n⟩ := s
  simp only at hw hn hd
  unfold Seal.encode Seal.decode
  simp only []
  rw [List.append_assoc]
  rw [readBytes_exact (toLEBytes 32 d) (w ++ n) (toLEBytes_length 32 d)]
  dsimp only
  rw [readBytes_exact w n hw]
  dsimp only
  rw [readBytes_all 32 n hn]
  dsimp only
  simp [fromLEBytes_toLEBytes 32 d hd]

/-- Acceptance of a recomputed seal by `verify`, for any hash function output:
`is_valid_hash` never rejects, and the equality check succeeds on the seal
produced by `Compute::compute` itself. -/
theorem verify_encode_compute (sha3 : List Byte → Hash256) (pre nonce : Hash256)
    (d : Nat) (hs : ∀ l, (sha3 l).length = 32) (hn : nonce.length = 32)
    (hd : d < 256 ^ 32) :
    Sha3Algorithm.verify sha3 pre
      (Seal.encode (Compute.compute sha3
        { pre_hash := pre, difficulty := d, nonce := nonce })) d = true := by
  unfold Sha3Algorithm.verify
  rw [Seal.decode_encode _ (hs _) hn hd]
  simp [is_valid_hash, Compute.compute]

/-- C1: the specification claims that `Sha3Algorithm::verify` rejects every
seal whose recomputed work hash exceeds the threshold derived from the
difficulty argument.  In the source, `is_valid_hash` ignores both of its
arguments and returns `true`, so `verify` consults no threshold at all: every
seal that matches the recomputation is accepted, whatever the numeric value of
its work hash — including a hash larger than any difficulty threshold. -/
theorem c1_verify_has_no_threshold :
    (∀ (h : Hash256) (d : Nat), is_valid_hash h d = true) ∧
    (∀ (sha3 : List Byte → Hash256) (pre nonce : Hash256) (d : Nat),
      (∀ l, (sha3 l).length = 32) → nonce.length = 32 → d < 256 ^ 32 →
      Sha3Algorithm.verify sha3 pre
        (Seal.encode (Compute.compute sha3
          { pre_hash := pre, difficulty := d, nonce := nonce })) d = true) := by
  constructor
  · intro h d
    rfl
  · intro sha3 pre nonce d hs hn hd
    exact verify_encode_compute sha3 pre nonce d hs hn hd

/-- Witness for C1: with a digest returning the all-255 hash — the largest
possible 256-bit work value, far above any threshold a difficulty of 10000
could denote — `verify` still accepts the seal. -/
theorem c1_witness :
    Sha3Algorithm.verify sha3Const255 zeroHash
      (Seal.encode (Compute.compute sha3Const255
        { pre_hash := zeroHash, difficulty := 10000, nonce := zeroHash })) 10000 = true
    ∧ (Compute.compute sha3Const255
        { pre_hash := zeroHash, difficulty := 10000, nonce := zeroHash }).work
      = List.replicate 32 255 := by
  constructor
  · exact c1_verify_has_no_threshold.2 sha3Const255 zeroHash zeroHash 10000
      (fun l => by simp [sha3Const255]) (by simp [zeroHash]) (by norm_num)
  · rfl

/-- C4: the specification claims the per-parent difficulty is the genesis
constant initially and is adjusted every period, so that it is not one constant
for all parents.  In the source, `Sha3Algorithm::difficulty` ignores its parent
argument and returns `Ok(U256::from(10000))`, the same constant for every
parent. -/
theorem c4_difficulty_is_constant (p q : Hash256) :
    Sha3Algorithm.difficulty p = Except.ok 10000 ∧
    Sha3Algorithm.difficulty p = Sha3Algorithm.difficulty q :=
  ⟨rfl, rfl⟩

theorem mineAux_some_verify (sha3 : List Byte → Hash256) (nonces : Nat → Hash256)
    (pre : Hash256) (d : Nat) (hs : ∀ l, (sha3 l).length = 32)
    (hn : ∀ i, (nonces i).length = 32) (hd : d < 256 ^ 32) :
    ∀ (fuel i : Nat) (s : List Byte),
      Sha3Algorithm.mineAux sha3 nonces pre d i fuel = some s →
      Sha3Algorithm.verify sha3 pre s d = true := by
  intro fuel
  induction fuel with
  | zero =>
    intro i s h
    simp [Sha3Algorithm.mineAux] at h
  | succ fuel ih =>
    intro i s h
    unfold Sha3Algorithm.mineAux at h
    simp only [is_valid_hash, if_true] at h
    obtain rfl : Seal.encode (Compute.compute sha3
        { pre_hash := pre, difficulty := d, nonce := nonces i }) = s :=
      Option.some.inj h
    exact verify_encode_compute sha3 pre (nonces i) d hs (hn i) hd

theorem mineAux_congr (sha3 : List Byte → Hash256) (nonces nonces2 : Nat → Hash256)
    (pre : Hash256) (d : Nat) :
    ∀ (fuel i : Nat), (∀ j, j < fuel → nonces (i + j) = nonces2 (i + j)) →
      Sha3Algorithm.mineAux sha3 nonces pre d i fuel
        = Sha3Algorithm.mineAux sha3 nonces2 pre d i fuel := by
  intro fuel
  induction fuel with
  | zero =>
    intro i _
    rfl
  | succ fuel ih =>
    intro i hagree
    unfold Sha3Algorithm.mineAux
    have h0 : nonces i = nonces2 i := by
      have := hagree 0 (Nat.succ_pos fuel)
      simpa using this
    rw [h0]
    have hrest := ih (i + 1) (fun j hj => by
      have := hagree (j + 1) (by omega)
      simpa [Nat.add_assoc, Nat.add_comm 1 j] using this)
    rw [hrest]

/-- C5: whenever `Sha3Algorithm::mine` returns `Some(sealBytes)`, `verify` on
the same pre-hash and difficulty accepts those bytes; `mine` reads at most the
given budget of candidate nonces from its RNG stream (its result is unchanged
by any modification of the stream beyond the budget), and a budget of zero
yields `None`. -/
theorem c5_mine_verify :
    (∀ (sha3 : List Byte → Hash256) (nonces : Nat → Hash256) (pre : Hash256)
        (d round : Nat) (s : List Byte),
      (∀ l, (sha3 l).length = 32) → (∀ i, (nonces i).length = 32) → d < 256 ^ 32 →
      Sha3Algorithm.mine sha3 nonces pre d round = some s →
      Sha3Algorithm.verify sha3 pre s d = true) ∧
    (∀ (sha3 : List Byte → Hash256) (nonces : Nat → Hash256) (pre : Hash256) (d : Nat),
      Sha3Algorithm.mine sha3 nonces pre d 0 = none) ∧
    (∀ (sha3 : List Byte → Hash256) (nonces nonces2 : Nat → Hash256) (pre : Hash256)
        (d round : Nat),
      (∀ i, i < round → nonces i = nonces2 i) →
      Sha3Algorithm.mine sha3 nonces pre d round
        = Sha3Algorithm.mine sha3 nonces2 pre d round) := by
  refine ⟨?_, ?_, ?_⟩
  · intro sha3 nonces pre d round s hs hn hd h
    exact mineAux_some_verify sha3 nonces pre d hs hn hd round 0 s h
  · intro sha3 nonces pre d
    rfl
  · intro sha3 nonces nonces2 pre d round hagree
    exact mineAux_congr sha3 nonces nonces2 pre d round 0 (fun j hj => by
      simpa using hagree j hj)

/-- Witness for C5: a budget of one with the constant digest yields a seal that
`verify` accepts. -/
theorem c5_witness :
    Sha3Algorithm.verify sha3Const255 zeroHash
      ((Sha3Algorithm.mine sha3Const255 zeroNonces zeroHash 10000 1).getD []) 10000
      = true := by
  exact c5_mine_verify.1 sha3Const255 zeroNonces zeroHash 10000 1 _
    (fun l => by simp [sha3Const255]) (fun i => by simp [zeroNonces, zeroHash])
    (by norm_num) rfl

/-! ### Theorems: scale-out coordinator -/

theorem scaleOutPhaseStep_progression (ph : Option ScaleOutPhase) (info : ShardInfo)
    (n W : Nat) :
    (scaleOutPhaseStep ph info n W = ph
      ∨ phaseIndex (scaleOutPhaseStep ph info n W) = (phaseIndex ph + 1) % 6)
    ∧ (∀ u, observeUtil ph = some u → scaleOutPhaseStep ph info n W ≠ ph → n = u) := by
  rcases ph with _ | p
  · rcases hso : info.scale_out with _ | so
    · exact ⟨Or.inl (by simp [scaleOutPhaseStep, hso]), fun u hu => by simp [observeUtil] at hu⟩
    · exact ⟨Or.inr (by simp [scaleOutPhaseStep, hso, phaseIndex]),
        fun u hu => by simp [observeUtil] at hu⟩
  · rcases p with ⟨u, t⟩ | ⟨u, t⟩ | ⟨u, t⟩ | c | ⟨t, c⟩
    · constructor
      · by_cases h : u = n
        · exact Or.inr (by simp [scaleOutPhaseStep, h, phaseIndex])
        · exact Or.inl (by simp [scaleOutPhaseStep, h])
      · intro u0 hu0 hne
        simp only [observeUtil, Option.some.injEq] at hu0
        subst hu0
        by_cases h : u = n
        · omega
        · exact absurd (by simp [scaleOutPhaseStep, h]) hne
    · constructor
      · by_cases h : u = n
        · exact Or.inr (by simp [scaleOutPhaseStep, h, phaseIndex])
        · exact Or.inl (by simp [scaleOutPhaseStep, h])
      · intro u0 hu0 hne
        simp only [observeUtil, Option.some.injEq] at hu0
        subst hu0
        by_cases h : u = n
        · omega
        · exact absurd (by simp [scaleOutPhaseStep, h]) hne
    · constructor
      · by_cases h : u = n
        · exact Or.inr (by simp [scaleOutPhaseStep, h, phaseIndex])
        · exact Or.inl (by simp [scaleOutPhaseStep, h])
      · intro u0 hu0 hne
        simp only [observeUtil, Option.some.injEq] at hu0
        subst hu0
        by_cases h : u = n
        · omega
        · exact absurd (by simp [scaleOutPhaseStep, h]) hne
    · exact ⟨Or.inr (by simp [scaleOutPhaseStep, phaseIndex]),
        fun u hu => by simp [observeUtil] at hu⟩
    · exact ⟨Or.inr (by simp [scaleOutPhaseStep, phaseIndex]),
        fun u hu => by simp [observeUtil] at hu⟩

/-- C2: each `set_shard_info` call either leaves the scale-out phase unchanged
or advances it to the immediately following phase of the cycle
`None, Started, NativeReady, Ready, Commiting, Committed, None` — no phase is
ever skipped — and from a phase carrying an `observe_util` height the phase
changes only when the current block number equals that height. -/
theorem c2_phase_progression (st : ShardingState) (info : ShardInfo) (n : Nat) :
    ((set_shard_info st info n).current_scale_out_phase = st.current_scale_out_phase
      ∨ phaseIndex (set_shard_info st info n).current_scale_out_phase
          = (phaseIndex st.current_scale_out_phase + 1) % 6)
    ∧ (∀ u, observeUtil st.current_scale_out_phase = some u →
        (set_shard_info st info n).current_scale_out_phase
          ≠ st.current_scale_out_phase →
        n = u) := by
  have hrw : (set_shard_info st info n).current_scale_out_phase
      = scaleOutPhaseStep st.current_scale_out_phase info n
          st.scale_out_observe_blocks := rfl
  rw [hrw]
  exact scaleOutPhaseStep_progression st.current_scale_out_phase info n
    st.scale_out_observe_blocks

/-- Witness for C2: a `Ready{observe_util := 5}` phase observed at block 5
advances (to the next phase in the cycle), and the gate applies. -/
theorem c2_witness :
    ((set_shard_info readyState plainInfo 5).current_scale_out_phase
        = readyState.current_scale_out_phase
      ∨ phaseIndex (set_shard_info readyState plainInfo 5).current_scale_out_phase
          = (phaseIndex readyState.current_scale_out_phase + 1) % 6)
    ∧ (5 : Nat) = 5 :=
  ⟨(c2_phase_progression readyState plainInfo 5).1,
   (c2_phase_progression readyState plainInfo 5).2 5 (by decide) (by decide)⟩

/-- C3 counterexample: at block 5 a `Ready{observe_util := 5}` phase with shard
count 4 becomes `Commiting{shard_count := 8}`, but the same block's
`on_finalize` leaves the phase at `Commiting` (it only deposits digest logs):
the phase has not become `Committed` by that block's finalization pass. -/
theorem c3_counterexample :
    (set_shard_info readyState scaleOutInfo 5).current_scale_out_phase
      = some (.Commiting 8)
    ∧ (on_finalize (set_shard_info readyState scaleOutInfo 5) 5).1.current_scale_out_phase
      = some (.Commiting 8)
    ∧ ¬ (on_finalize (set_shard_info readyState scaleOutInfo 5) 5).1.current_scale_out_phase
      = some (.Committed 1 8) := by
  refine ⟨rfl, rfl, by decide⟩

theorem commiting_advances (st : ShardingState) (info : ShardInfo) (n c : Nat)
    (h : st.current_scale_out_phase = some (.Commiting c)) :
    (set_shard_info st info n).current_scale_out_phase
      = some (.Committed (targetShardNum info) c) := by
  have hrw : (set_shard_info st info n).current_scale_out_phase
      = scaleOutPhaseStep st.current_scale_out_phase info n
          st.scale_out_observe_blocks := rfl
  rw [hrw, h]
  rfl

theorem committed_clears (st : ShardingState) (info : ShardInfo) (n a b : Nat)
    (h : st.current_scale_out_phase = some (.Committed a b)) :
    (set_shard_info st info n).current_scale_out_phase = none := by
  have hrw : (set_shard_info st info n).current_scale_out_phase
      = scaleOutPhaseStep st.current_scale_out_phase info n
          st.scale_out_observe_blocks := rfl
  rw [hrw, h]
  rfl

/-- C3 (amended): a `Ready{observe_util: H}` phase observed by `set_shard_info`
at block `H` with current shard count `C` becomes `Commiting{shard_count: 2C}`
at block `H`; `on_finalize` never modifies the phase (it only deposits logs),
so the phase is still `Commiting` after that block's finalization; the
`Commiting → Committed` and `Committed → None` transitions happen one per
block, at the `set_shard_info` calls of the two following blocks. -/
theorem c3_amended (st : ShardingState) (info : ShardInfo) (u s n : Nat)
    (hph : st.current_scale_out_phase = some (.Ready u s)) (hn : n = u) :
    (set_shard_info st info n).current_scale_out_phase
      = some (.Commiting (info.count + info.count))
    ∧ (∀ (st2 : ShardingState) (n2 : Nat), (on_finalize st2 n2).1 = st2)
    ∧ (∀ (info2 : ShardInfo) (n2 : Nat),
        (set_shard_info (set_shard_info st info n) info2 n2).current_scale_out_phase
          = some (.Committed (targetShardNum info2) (info.count + info.count)))
    ∧ (∀ (info2 info3 : ShardInfo) (n2 n3 : Nat),
        (set_shard_info (set_shard_info (set_shard_info st info n) info2 n2)
            info3 n3).current_scale_out_phase = none) := by
  have h1 : (set_shard_info st info n).current_scale_out_phase
      = some (.Commiting (info.count + info.count)) := by
    have hrw : (set_shard_info st info n).current_scale_out_phase
        = scaleOutPhaseStep st.current_scale_out_phase info n
            st.scale_out_observe_blocks := rfl
    rw [hrw, hph]
    simp [scaleOutPhaseStep, hn.symm]
  refine ⟨h1, fun st2 n2 => rfl, ?_, ?_⟩
  · intro info2 n2
    exact commiting_advances _ info2 n2 _ h1
  · intro info2 info3 n2 n3
    exact committed_clears _ info3 n3 _ _ (commiting_advances _ info2 n2 _ h1)

/-- Witness for C3 (amended): the concrete scenario at block 5 with shard
count 4 — the phase becomes `Commiting 8`, stays `Commiting 8` through
`on_finalize`, becomes `Committed` at the next call and `None` at the one
after. -/
theorem c3_witness :
    (set_shard_info readyState scaleOutInfo 5).current_scale_out_phase
      = some (.Commiting (scaleOutInfo.count + scaleOutInfo.count))
    ∧ (set_shard_info (set_shard_info readyState scaleOutInfo 5) scaleOutInfo 6).current_scale_out_phase
      = some (.Committed (targetShardNum scaleOutInfo)
                (scaleOutInfo.count + scaleOutInfo.count))
    ∧ (set_shard_info (set_shard_info (set_shard_info readyState scaleOutInfo 5)
          scaleOutInfo 6) scaleOutInfo 7).current_scale_out_phase = none :=
  ⟨(c3_amended readyState scaleOutInfo 5 1 5 (by decide) rfl).1,
   (c3_amended readyState scaleOutInfo 5 1 5 (by decide) rfl).2.2.1 scaleOutInfo 6,
   (c3_amended readyState scaleOutInfo 5 1 5 (by decide) rfl).2.2.2 scaleOutInfo scaleOutInfo 6 7⟩

/-! ### Theorems: mining worker loop -/

/-- C6 counterexample: with mining disabled and the stop flag unset (and the
lock healthy), the loop body of `start_worker` breaks out of the loop — it
neither sleeps-and-re-checks nor waits for the stop flag. -/
theorem c6_counterexample :
    worker_loop_step false (some false) false = LoopStep.Break
    ∧ worker_loop_step false (some false) false ≠ LoopStep.SleepRetry 5 :=
  ⟨rfl, by decide⟩

/-- C6 (amended): the loop body breaks exactly when mining is disabled, the
stop-flag read fails, or the stop flag is set; it sleeps the fixed 5-second
interval and re-checks exactly on a major-sync iteration with mining enabled
and the loop not stopped; otherwise it attempts work with the fixed budget of
10000 nonces. -/
theorem c6_loop_step_cases (mine : Bool) (stop_read : Option Bool) (syncing : Bool) :
    (worker_loop_step mine stop_read syncing = LoopStep.Break
      ↔ (mine = false ∨ stop_read = none ∨ stop_read = some true))
    ∧ (worker_loop_step mine stop_read syncing = LoopStep.SleepRetry 5
      ↔ (mine = true ∧ stop_read = some false ∧ syncing = true))
    ∧ (worker_loop_step mine stop_read syncing = LoopStep.Work 10000
      ↔ (mine = true ∧ stop_read = some false ∧ syncing = false)) := by
  cases mine <;> cases syncing <;> rcases stop_read with _ | b
  all_goals first
    | decide
    | (cases b <;> decide)

/-- Witness for C6 (amended): mining enabled, not stopped, major sync in
progress — the loop sleeps 5 seconds and re-checks. -/
theorem c6_witness :
    worker_loop_step true (some false) true = LoopStep.SleepRetry 5 :=
  (c6_loop_step_cases true (some false) true).2.1.mpr ⟨rfl, rfl, rfl⟩

/-! ### Theorems: relay wire format -/

theorem dBind_some_then {α β : Type} {d : Dec α} {f : α → Dec β} {l : List Byte}
    {a : α} {r : List Byte} (h : d l = some (a, r)) : dBind d f l = f a r := by
  unfold dBind
  rw [h]

theorem dBind_none_then {α β : Type} {d : Dec α} {f : α → Dec β} {l : List Byte}
    (h : d l = none) : dBind d f l = none := by
  unfold dBind
  rw [h]

theorem extStable_decodeAddress : ExtStable decodeAddress :=
  extStable_readBytes 32

theorem extStable_decodeHash : ExtStable decodeHash :=
  extStable_readBytes 32

theorem extStable_decodeAmount : ExtStable decodeAmount := by
  unfold decodeAmount
  apply extStable_dBind (extStable_decodeCompact 16)
  intro a
  dsimp only
  exact extStable_ite _ extStable_dFail (extStable_dPure _)

theorem extStable_decodeEraField : ExtStable decodeEraField := by
  unfold decodeEraField
  apply extStable_dBind (extStable_checkLen 1)
  intro _
  apply extStable_dBind extStable_peekByte
  intro b0
  apply extStable_ite
  · exact extStable_eraDecode
  · exact extStable_dBind extStable_readByte fun _ => extStable_dPure _

theorem extStable_decodeSignedPart : ExtStable decodeSignedPart := by
  unfold decodeSignedPart
  apply extStable_dBind extStable_readByte
  intro _
  apply extStable_dBind extStable_decodeAddress
  intro _
  apply extStable_dBind (extStable_checkLen 64)
  intro _
  apply extStable_dBind (extStable_readBytes 64)
  intro _
  apply extStable_dBind (extStable_decodeCompact 8)
  intro _
  apply extStable_dBind extStable_decodeEraField
  intro _
  exact extStable_dPure _

theorem extStable_decodeRelayTypes : ExtStable decodeRelayTypes := by
  unfold decodeRelayTypes
  apply extStable_dBind extStable_readByte
  intro b
  exact extStable_ite _ (extStable_dPure _)
    (extStable_ite _ (extStable_dPure _) extStable_dFail)

theorem extStable_originTransfer_decodeRem : ExtStable OriginTransfer.decodeRem := by
  unfold OriginTransfer.decodeRem
  apply extStable_dBind (extStable_checkLen _)
  intro _
  apply extStable_dBind extStable_decodeVecUnit
  intro _
  apply extStable_dBind extStable_readByte
  intro version
  apply extStable_ite _ extStable_dFail
  apply extStable_dBind
    (extStable_ite _ extStable_decodeSignedPart (extStable_dPure _))
  intro sie
  apply extStable_dBind (extStable_checkLen _)
  intro _
  apply extStable_dBind extStable_readByte
  intro _
  apply extStable_dBind extStable_readByte
  intro _
  apply extStable_dBind extStable_readByte
  intro _
  apply extStable_dBind extStable_decodeAddress
  intro _
  apply extStable_dBind extStable_decodeAmount
  intro _
  exact extStable_dPure _

theorem extStable_relayTransfer_decodeRem (blake2 : List Byte → List Byte) :
    ExtStable (RelayTransfer.decodeRem blake2) := by
  unfold RelayTransfer.decodeRem
  apply extStable_dBind extStable_decodeVecUnit
  intro _
  apply extStable_dBind extStable_readByte
  intro version
  apply extStable_ite _ extStable_dFail
  apply extStable_dBind extStable_readByte
  intro _
  apply extStable_dBind extStable_readByte
  intro _
  apply extStable_dBind (extStable_checkLen _)
  intro _
  apply extStable_dBind extStable_decodeByteVec
  intro origin
  apply extStable_dBind (extStable_decodeCompact 8)
  intro _
  apply extStable_dBind extStable_decodeHash
  intro _
  apply extStable_dBind extStable_decodeHash
  intro _
  cases OriginTransfer.decode origin with
  | none => exact extStable_dFail
  | some ot => exact extStable_dPure _

theorem extStable_relayParams_decodeRem (blake2 : List Byte → List Byte) :
    ExtStable (RelayParams.decodeRem blake2) := by
  unfold RelayParams.decodeRem
  apply extStable_dBind (extStable_checkLenOver _)
  intro _
  apply extStable_dBind extStable_decodeVecUnit
  intro _
  apply extStable_dBind extStable_readByte
  intro version
  apply extStable_ite _ extStable_dFail
  apply extStable_dBind extStable_readByte
  intro _
  apply extStable_dBind extStable_readByte
  intro _
  apply extStable_dBind extStable_decodeRelayTypes
  intro _
  apply extStable_dBind extStable_decodeByteVec
  intro _
  apply extStable_dBind (extStable_decodeCompact 8)
  intro _
  apply extStable_dBind extStable_decodeHash
  intro _
  apply extStable_dBind extStable_decodeHash
  intro _
  exact extStable_dPure _

theorem extStable_originExtrinsic_decodeRem (relay_type : RelayTypes) :
    ExtStable (OriginExtrinsic.decodeRem relay_type) := by
  unfold OriginExtrinsic.decodeRem
  apply extStable_dBind (extStable_checkLen _)
  intro _
  apply extStable_dBind extStable_decodeVecUnit
  intro _
  apply extStable_dBind extStable_readByte
  intro version
  apply extStable_ite _ extStable_dFail
  apply extStable_dBind
    (extStable_ite _ extStable_decodeSignedPart (extStable_dPure _))
  intro sie
  apply extStable_dBind (extStable_checkLen _)
  intro _
  apply extStable_dBind extStable_readByte
  intro _
  apply extStable_dBind extStable_readByte
  intro _
  apply extStable_dBind
    (extStable_ite _
      (extStable_dBind extStable_decodeByteVec fun _ =>
        extStable_dBind (extStable_decodeCompact 4) fun _ => extStable_dPure _)
      (extStable_dPure _))
  intro shard_id
  apply extStable_dBind extStable_readByte
  intro _
  apply extStable_dBind extStable_decodeAddress
  intro _
  apply extStable_dBind extStable_decodeAmount
  intro _
  exact extStable_ite _ (extStable_dPure _)
    (extStable_ite _ (extStable_dPure _) extStable_dFail)

/-- C7: truncating a buffer that one of the four relay-format decode routines
consumes entirely, at any byte boundary, yields a decode failure (`None`)
rather than partial data — every read in the embedded decoders is
bounds-checked, so no byte outside the buffer is ever touched. -/
theorem c7_truncation_rejected :
    (∀ (data : List Byte),
      (OriginTransfer.decodeRem data).map Prod.snd = some [] →
      ∀ k, k < data.length → OriginTransfer.decode (data.take k) = none)
    ∧ (∀ (blake2 : List Byte → List Byte) (data : List Byte),
      (RelayTransfer.decodeRem blake2 data).map Prod.snd = some [] →
      ∀ k, k < data.length → RelayTransfer.decode blake2 (data.take k) = none)
    ∧ (∀ (blake2 : List Byte → List Byte) (data : List Byte),
      (RelayParams.decodeRem blake2 data).map Prod.snd = some [] →
      ∀ k, k < data.length → RelayParams.decode blake2 (data.take k) = none)
    ∧ (∀ (relay_type : RelayTypes) (data : List Byte),
      (OriginExtrinsic.decodeRem relay_type data).map Prod.snd = some [] →
      ∀ k, k < data.length → OriginExtrinsic.decode relay_type (data.take k) = none) := by
  refine ⟨?_, ?_, ?_, ?_⟩
  · intro data h k hk
    unfold OriginTransfer.decode
    rw [dec_truncation OriginTransfer.decodeRem extStable_originTransfer_decodeRem
      data h k hk]
    rfl
  · intro blake2 data h k hk
    unfold RelayTransfer.decode
    rw [dec_truncation (RelayTransfer.decodeRem blake2)
      (extStable_relayTransfer_decodeRem blake2) data h k hk]
    rfl
  · intro blake2 data h k hk
    unfold RelayParams.decode
    rw [dec_truncation (RelayParams.decodeRem blake2)
      (extStable_relayParams_decodeRem blake2) data h k hk]
    rfl
  · intro relay_type data h k hk
    unfold OriginExtrinsic.decode
    rw [dec_truncation (OriginExtrinsic.decodeRem relay_type)
      (extStable_originExtrinsic_decodeRem relay_type) data h k hk]
    rfl

/-- Witness for C7: each of the fully-consumed sample buffers, truncated at a
concrete interior boundary, fails to decode. -/
theorem c7_witness :
    OriginTransfer.decode (testTransferBytes.take 70) = none
    ∧ RelayTransfer.decode blakeZero (relayBytes.take 100) = none
    ∧ RelayParams.decode blakeZero (relayParamsBytes.take 100) = none
    ∧ OriginExtrinsic.decode RelayTypes.Balance (testTransferBytes.take 70) = none :=
  ⟨c7_truncation_rejected.1 testTransferBytes (by decide) 70 (by decide),
   c7_truncation_rejected.2.1 blakeZero relayBytes (by decide) 100 (by decide),
   c7_truncation_rejected.2.2.1 blakeZero relayParamsBytes (by decide) 100 (by decide),
   c7_truncation_rejected.2.2.2 RelayTypes.Balance testTransferBytes (by decide) 70
     (by decide)⟩

theorem decSuffix_decodeRelayTypes : DecSuffix decodeRelayTypes := by
  unfold decodeRelayTypes
  apply decSuffix_dBind decSuffix_readByte
  intro b
  exact decSuffix_ite _ (decSuffix_dPure _)
    (decSuffix_ite _ (decSuffix_dPure _) decSuffix_dFail)

/-- Block read from the middle of a buffer is a contiguous infix of it. -/
theorem isInfix_of_append_suffix (v r data : List Byte)
    (h : (v ++ r).IsSuffix data) : v.IsInfix data := by
  obtain ⟨t, ht⟩ := h
  refine ⟨t, r, ?_⟩
  rw [List.append_assoc]
  exact ht

/-- C8: on every buffer on which `RelayTransfer::decode` (resp.
`RelayParams::decode`) succeeds, the stored `hash` field equals the Blake2
content hash of exactly the raw origin-transfer bytes stored alongside it, and
those bytes are a contiguous segment of the input buffer. -/
theorem c8_hash_binds_origin :
    (∀ (blake2 : List Byte → List Byte) (data : List Byte) (rt : RelayTransfer),
      RelayTransfer.decode blake2 data = some rt →
      rt.hash = blake2 rt.origin ∧ rt.origin.IsInfix data)
    ∧ (∀ (blake2 : List Byte → List Byte) (data : List Byte) (rp : RelayParams),
      RelayParams.decode blake2 data = some rp →
      rp.hash = blake2 rp.origin ∧ rp.origin.IsInfix data) := by
  constructor
  · intro blake2 data rt h
    unfold RelayTransfer.decode at h
    cases hrem : RelayTransfer.decodeRem blake2 data with
    | none =>
      rw [hrem] at h
      exact absurd h (by simp)
    | some p =>
      rw [hrem] at h
      simp only [Option.map_some', Option.some.injEq] at h
      subst h
      obtain ⟨rt, rest⟩ := p
      unfold RelayTransfer.decodeRem at hrem
      rw [dBind_eq_some] at hrem
      obtain ⟨len, r1, h1, hrem⟩ := hrem
      rw [dBind_eq_some] at hrem
      obtain ⟨version, r2, h2, hrem⟩ := hrem
      by_cases hc : version &&& 128 ≠ 0 ∨ version &&& 127 ≠ 1
      · rw [if_pos hc] at hrem
        simp [dFail] at hrem
      · rw [if_neg hc] at hrem
        rw [dBind_eq_some] at hrem
        obtain ⟨mbyte, r3, h3, hrem⟩ := hrem
        rw [dBind_eq_some] at hrem
        obtain ⟨fbyte, r4, h4, hrem⟩ := hrem
        rw [dBind_eq_some] at hrem
        obtain ⟨ubyte, r5, h5, hrem⟩ := hrem
        rw [dBind_eq_some] at hrem
        obtain ⟨origin, r6, h6, hrem⟩ := hrem
        rw [dBind_eq_some] at hrem
        obtain ⟨number, r7, h7, hrem⟩ := hrem
        rw [dBind_eq_some] at hrem
        obtain ⟨block_hash, r8, h8, hrem⟩ := hrem
        rw [dBind_eq_some] at hrem
        obtain ⟨parent, r9, h9, hrem⟩ := hrem
        cases hot : OriginTransfer.decode origin with
        | none =>
          rw [hot] at hrem
          simp [dFail] at hrem
        | some ot =>
          rw [hot] at hrem
          simp only [dPure, Option.some.injEq, Prod.mk.injEq] at hrem
          rw [← hrem.1]
          refine ⟨rfl, ?_⟩
          show origin.IsInfix data
          have hs6 : (origin ++ r6).IsSuffix r5 :=
            decodeByteVec_append_suffix r5 origin r6 h6
          have hs5 : r5.IsSuffix r4 := decSuffix_checkLen _ r4 _ r5 h5
          have hs4 : r4.IsSuffix r3 := decSuffix_readByte r3 _ r4 h4
          have hs3 : r3.IsSuffix r2 := decSuffix_readByte r2 _ r3 h3
          have hs2 : r2.IsSuffix r1 := decSuffix_readByte r1 _ r2 h2
          have hs1 : r1.IsSuffix data := decSuffix_decodeVecUnit data _ r1 h1
          exact isInfix_of_append_suffix origin r6 data
            (hs6.trans (hs5.trans (hs4.trans (hs3.trans (hs2.trans hs1)))))
  · intro blake2 data rp h
    unfold RelayParams.decode at h
    cases hrem : RelayParams.decodeRem blake2 data with
    | none =>
      rw [hrem] at h
      exact absurd h (by simp)
    | some p =>
      rw [hrem] at h
      simp only [Option.map_some', Option.some.injEq] at h
      subst h
      obtain ⟨rp, rest⟩ := p
      unfold RelayParams.decodeRem at hrem
      rw [dBind_eq_some] at hrem
      obtain ⟨u0, r0, h0, hrem⟩ := hrem
      rw [dBind_eq_some] at hrem
      obtain ⟨len, r1, h1, hrem⟩ := hrem
      rw [dBind_eq_some] at hrem
      obtain ⟨version, r2, h2, hrem⟩ := hrem
      by_cases hc : version &&& 128 ≠ 0 ∨ version &&& 127 ≠ 1
      · rw [if_pos hc] at hrem
        simp [dFail] at hrem
      · rw [if_neg hc] at hrem
        rw [dBind_eq_some] at hrem
        obtain ⟨mbyte, r3, h3, hrem⟩ := hrem
        rw [dBind_eq_some] at hrem
        obtain ⟨fbyte, r4, h4, hrem⟩ := hrem
        rw [dBind_eq_some] at hrem
        obtain ⟨relay_type, r5, h5, hrem⟩ := hrem
        rw [dBind_eq_some] at hrem
        obtain ⟨origin, r6, h6, hrem⟩ := hrem
        rw [dBind_eq_some] at hrem
        obtain ⟨number, r7, h7, hrem⟩ := hrem
        rw [dBind_eq_some] at hrem
        obtain ⟨block_hash, r8, h8, hrem⟩ := hrem
        rw [dBind_eq_some] at hrem
        obtain ⟨parent_hash, r9, h9, hrem⟩ := hrem
        simp only [dPure, Option.some.injEq, Prod.mk.injEq] at hrem
        rw [← hrem.1]
        refine ⟨rfl, ?_⟩
        show origin.IsInfix data
        have hs6 : (origin ++ r6).IsSuffix r5 :=
          decodeByteVec_append_suffix r5 origin r6 h6
        have hs5 : r5.IsSuffix r4 := decSuffix_decodeRelayTypes r4 _ r5 h5
        have hs4 : r4.IsSuffix r3 := decSuffix_readByte r3 _ r4 h4
        have hs3 : r3.IsSuffix r2 := decSuffix_readByte r2 _ r3 h3
        have hs2 : r2.IsSuffix r1 := decSuffix_readByte r1 _ r2 h2
        have hs1 : r1.IsSuffix r0 := decSuffix_decodeVecUnit r0 _ r1 h1
        have hs0 : r0.IsSuffix data := decSuffix_checkLenOver _ data _ r0 h0
        exact isInfix_of_append_suffix origin r6 data
          (hs6.trans (hs5.trans (hs4.trans (hs3.trans (hs2.trans (hs1.trans hs0))))))

/-- Witness for C8: on the concrete relay buffers, the stored hash equals the
Blake2 digest of the stored origin bytes. -/
theorem c8_witness :
    ((RelayTransfer.decode blakeZero relayBytes).getD default).hash
      = blakeZero (((RelayTransfer.decode blakeZero relayBytes).getD default).origin)
    ∧ ((RelayParams.decode blakeZero relayParamsBytes).getD default).hash
      = blakeZero (((RelayParams.decode blakeZero relayParamsBytes).getD default).origin) :=
  ⟨(c8_hash_binds_origin.1 blakeZero relayBytes _ (by rfl)).1,
   (c8_hash_binds_origin.2 blakeZero relayParamsBytes _ (by rfl)).1⟩

/-- C9: a relay buffer whose version byte (the byte following the compact
length prefix) has the high `is_signed` bit set, or whose low seven bits are
not 1, is rejected by both `RelayTransfer::decode` and `RelayParams::decode`. -/
theorem c9_version_gate (data : List Byte) (v : Byte)
    (hv : relayVersionByte data = some v)
    (hbad : v &&& 128 ≠ 0 ∨ v &&& 127 ≠ 1) :
    (∀ blake2, RelayTransfer.decode blake2 data = none)
    ∧ (∀ blake2, RelayParams.decode blake2 data = none) := by
  unfold relayVersionByte at hv
  cases hvb : (dBind decodeVecUnit fun _ => readByte) data with
  | none =>
    rw [hvb] at hv
    exact absurd hv (by simp)
  | some p =>
    rw [hvb] at hv
    simp only [Option.map_some', Option.some.injEq] at hv
    obtain ⟨v0, rv⟩ := p
    simp only at hv
    subst hv
    rw [dBind_eq_some] at hvb
    obtain ⟨len, r1, h1, h2⟩ := hvb
    constructor
    · intro blake2
      cases hrem : RelayTransfer.decodeRem blake2 data with
      | none => simp [RelayTransfer.decode, hrem]
      | some p =>
        exfalso
        obtain ⟨rt, rest⟩ := p
        unfold RelayTransfer.decodeRem at hrem
        rw [dBind_eq_some] at hrem
        obtain ⟨len2, r1b, h1b, hrem⟩ := hrem
        obtain ⟨rfl, rfl⟩ : len = len2 ∧ r1 = r1b := by
          have hinj := Option.some.inj (h1.symm.trans h1b)
          exact ⟨congrArg Prod.fst hinj, congrArg Prod.snd hinj⟩
        rw [dBind_eq_some] at hrem
        obtain ⟨v2, r2b, h2b, hrem⟩ := hrem
        obtain ⟨rfl, rfl⟩ : v0 = v2 ∧ rv = r2b := by
          have hinj := Option.some.inj (h2.symm.trans h2b)
          exact ⟨congrArg Prod.fst hinj, congrArg Prod.snd hinj⟩
        rw [if_pos hbad] at hrem
        simp [dFail] at hrem
    · intro blake2
      cases hrem : RelayParams.decodeRem blake2 data with
      | none => simp [RelayParams.decode, hrem]
      | some p =>
        exfalso
        obtain ⟨rp, rest⟩ := p
        unfold RelayParams.decodeRem at hrem
        rw [dBind_eq_some] at hrem
        obtain ⟨u0, r0, h0, hrem⟩ := hrem
        have hr0 : r0 = data := by
          unfold checkLenOver at h0
          split at h0
          · exact absurd h0 (by simp)
          · exact (congrArg Prod.snd (Option.some.inj h0)).symm
        subst hr0
        rw [dBind_eq_some] at hrem
        obtain ⟨len2, r1b, h1b, hrem⟩ := hrem
        obtain ⟨rfl, rfl⟩ : len = len2 ∧ r1 = r1b := by
          have hinj := Option.some.inj (h1.symm.trans h1b)
          exact ⟨congrArg Prod.fst hinj, congrArg Prod.snd hinj⟩
        rw [dBind_eq_some] at hrem
        obtain ⟨v2, r2b, h2b, hrem⟩ := hrem
        obtain ⟨rfl, rfl⟩ : v0 = v2 ∧ rv = r2b := by
          have hinj := Option.some.inj (h2.symm.trans h2b)
          exact ⟨congrArg Prod.fst hinj, congrArg Prod.snd hinj⟩
        rw [if_pos hbad] at hrem
        simp [dFail] at hrem

/-- Witness for C9: a buffer whose version byte is `0x81` (signed bit set,
version 1) is rejected by both relay decoders even though it is long enough to
pass every length guard. -/
theorem c9_witness :
    RelayTransfer.decode blakeZero ([0, 129] ++ List.replicate 200 0) = none
    ∧ RelayParams.decode blakeZero ([0, 129] ++ List.replicate 200 0) = none :=
  ⟨(c9_version_gate ([0, 129] ++ List.replicate 200 0) 129 (by decide)
      (Or.inl (by decide))).1 blakeZero,
   (c9_version_gate ([0, 129] ++ List.replicate 200 0) 129 (by decide)
      (Or.inl (by decide))).2 blakeZero⟩

/-- C10: `OriginTransfer::decode` and `OriginExtrinsic::decode` reject every
input shorter than `64 + 1 + 1` bytes — the minimum-length guard counts the
64-byte signature before the `is_signed` flag is examined, so even a complete
well-formed unsigned transfer shorter than 66 bytes is rejected. -/
theorem c10_min_length (data : List Byte) (relay_type : RelayTypes)
    (h : data.length < 64 + 1 + 1) :
    OriginTransfer.decode data = none
    ∧ OriginExtrinsic.decode relay_type data = none := by
  have hc : checkLen (64 + 1 + 1) data = none := by
    unfold checkLen
    rw [if_pos h]
  constructor
  · unfold OriginTransfer.decode OriginTransfer.decodeRem
    rw [dBind_none_then hc]
    rfl
  · unfold OriginExtrinsic.decode OriginExtrinsic.decodeRem
    rw [dBind_none_then hc]
    rfl

/-- Witness for C10: the 38-byte unsigned sample is rejected by both decoders,
although the same bytes extended to 66 bytes with padding decode successfully —
the sample itself is well-formed and fails only the length guard. -/
theorem c10_witness :
    unsignedTransferBytes.length < 64 + 1 + 1
    ∧ OriginTransfer.decode unsignedTransferBytes = none
    ∧ OriginExtrinsic.decode RelayTypes.Balance unsignedTransferBytes = none
    ∧ OriginTransfer.decode (unsignedTransferBytes ++ List.replicate 28 0) ≠ none :=
  ⟨by decide,
   (c10_min_length unsignedTransferBytes RelayTypes.Balance (by decide)).1,
   (c10_min_length unsignedTransferBytes RelayTypes.Balance (by decide)).2,
   by decide⟩
